import Mathlib

/-!
# Verification of the `libboardgame_mcts` search core

A shallow embedding, in Lean 4, of the parts of the Pentobi MCTS engine that
the specification talks about:

* `src/libboardgame_mcts/Search.h` — the search controller
  (`check_move_cannot_change`, `select_child_final`, `select_child`, the reuse
  decision in `search`, `prune`, `search_loop`, `get_max_nodes`,
  `update_rave_values`);
* `src/libboardgame_util/IntervalChecker.cpp` — `check_expensive`.

The C++ `Float` type (visit counts, values) is modelled by `ℚ` except where a
claim's statement itself involves `sqrt`, where `ℝ` is used.  Loops are
translated into structural recursion over the list of children / the list of
per-iteration observations; data the search obtains from collaborators that
are outside the embedded code (the game state, the tree arena, the time
source) is passed in as explicit inputs, one per call site, in program order.
-/

namespace LibboardgameMcts

/-- One linked child of a tree node, as observed by the child-iteration loops
in `Search.h`: the move (by its integer id `Move::to_int()`), the visit count
and the value.  Counts and values are `Float` in the source, modelled by `ℚ`. -/
structure ChildF where
  move : Nat
  count : ℚ
  value : ℚ
  deriving DecidableEq, Repr

/-! ## `Search::check_move_cannot_change` (Search.h:768-786)

```cpp
if (remaining > count)
    return false;
Float max_count = 0;
Float second_max_count = 0;
for (ChildIterator i(m_tree, m_tree.get_root()); i; ++i)
{
    Float count = i->get_count();
    if (count > max_count)
    {
        second_max_count = max_count;
        max_count = count;
    }
}
return (max_count > second_max_count + remaining);
```
-/

/-- The scan loop of `check_move_cannot_change`: carries
`(max_count, second_max_count)`, and on `count > max_count` shifts the old
maximum into `second_max_count`.  (There is no branch updating
`second_max_count` alone.) -/
def cmccScan : List ChildF → ℚ → ℚ → ℚ × ℚ
  | [], maxCount, secondMaxCount => (maxCount, secondMaxCount)
  | c :: rest, maxCount, secondMaxCount =>
      if c.count > maxCount then cmccScan rest c.count maxCount
      else cmccScan rest maxCount secondMaxCount

/-- `Search::check_move_cannot_change(count, remaining)` over the root's
children. -/
def check_move_cannot_change (children : List ChildF) (count remaining : ℚ) :
    Bool :=
  if remaining > count then false
  else
    let p := cmccScan children 0 0
    decide (p.1 > p.2 + remaining)

/-! ## `Search::select_child_final` (Search.h:1377-1401)

```cpp
const Node* result = 0;
Float max_count = -1;
Float max_count_value = -numeric_limits<Float>::max();
for (ChildIterator i(m_tree, node); i; ++i)
{
    Float count = i->get_count();
    if (count > max_count
        || (count == max_count && i->get_value() > max_count_value))
    {
        if (exclude_moves != 0 && find(...) != exclude_moves->end())
            continue;
        max_count = count;
        max_count_value = i->get_value();
        result = &(*i);
    }
}
return result;
```
-/

/-- Stand-in for `-numeric_limits<Float>::max()`, the initial value of
`max_count_value`.  It is below every value a node can carry (values are
evaluations in `[0, 1]`); its exact magnitude is never consulted because the
initial `max_count = -1` is below every visit count. -/
def negFloatMax : ℚ := -(2 ^ 128)

/-- The selection loop of `select_child_final`, carrying
`(result, max_count, max_count_value)`. -/
def scfLoop (excludeMoves : List Nat) :
    List ChildF → Option ChildF → ℚ → ℚ → Option ChildF
  | [], result, _, _ => result
  | c :: rest, result, maxCount, maxCountValue =>
      if c.count > maxCount ∨ (c.count = maxCount ∧ c.value > maxCountValue)
      then
        if c.move ∈ excludeMoves then scfLoop excludeMoves rest result maxCount maxCountValue
        else scfLoop excludeMoves rest (some c) c.count c.value
      else scfLoop excludeMoves rest result maxCount maxCountValue

/-- `Search::select_child_final(node, exclude_moves)`: highest visit count,
value as tie-breaker, moves in `exclude_moves` skipped. -/
def select_child_final (excludeMoves : List Nat) (children : List ChildF) :
    Option ChildF :=
  scfLoop excludeMoves children none (-1) negFloatMax

/-- `c` loses to `r` strictly in the final-selection order: lower count, or
equal count and lower value. -/
def FinalLt (c r : ChildF) : Prop :=
  c.count < r.count ∨ (c.count = r.count ∧ c.value < r.value)

/-- `c` does not beat `r` in the final-selection order. -/
def FinalLe (c r : ChildF) : Prop :=
  c.count < r.count ∨ (c.count = r.count ∧ c.value ≤ r.value)

instance : DecidablePred fun p : ChildF × ChildF => FinalLt p.1 p.2 :=
  fun _ => by unfold FinalLt; infer_instance

/-- `r` is the first child, in allocation (iteration) order, that attains the
lexicographic maximum of (count, value) among the non-excluded children:
every earlier non-excluded child is strictly below it and no later
non-excluded child is above it. -/
def FirstBest (excludeMoves : List Nat) (children : List ChildF)
    (r : ChildF) : Prop :=
  ∃ pre post, children = pre ++ r :: post ∧ r.move ∉ excludeMoves ∧
    (∀ c ∈ pre, c.move ∈ excludeMoves ∨ FinalLt c r) ∧
    (∀ c ∈ post, c.move ∈ excludeMoves ∨ FinalLe c r)

theorem finalLt_trans {a b c : ChildF} (h₁ : FinalLt a b) (h₂ : FinalLt b c) :
    FinalLt a c := by
  rcases h₁ with h₁ | ⟨h₁, h₁v⟩ <;> rcases h₂ with h₂ | ⟨h₂, h₂v⟩
  · exact Or.inl (h₁.trans h₂)
  · exact Or.inl (h₂ ▸ h₁)
  · exact Or.inl (h₁ ▸ h₂)
  · exact Or.inr ⟨h₁.trans h₂, h₁v.trans h₂v⟩

theorem finalLt_of_finalLe_of_finalLt {a b c : ChildF} (h₁ : FinalLe a b)
    (h₂ : FinalLt b c) : FinalLt a c := by
  rcases h₁ with h₁ | ⟨h₁, h₁v⟩ <;> rcases h₂ with h₂ | ⟨h₂, h₂v⟩
  · exact Or.inl (h₁.trans h₂)
  · exact Or.inl (h₂ ▸ h₁)
  · exact Or.inl (h₁ ▸ h₂)
  · exact Or.inr ⟨h₁.trans h₂, h₁v.trans_lt h₂v⟩

theorem finalLe_of_not_accept {c r : ChildF}
    (h : ¬(c.count > r.count ∨ (c.count = r.count ∧ c.value > r.value))) :
    FinalLe c r := by
  push_neg at h
  obtain ⟨h₁, h₂⟩ := h
  rcases lt_or_eq_of_le h₁ with h | h
  · exact Or.inl h
  · exact Or.inr ⟨h, h₂ h⟩

/-- Behaviour of the `select_child_final` loop from a state in which `r` is
the current result (so `max_count = r.count`, `max_count_value = r.value`):
either `r` survives and nothing in the rest beats it, or the result is the
first child of the rest that strictly improves on everything seen. -/
theorem scfLoop_some_spec (excludeMoves : List Nat) :
    ∀ (rest : List ChildF) (r : ChildF),
    ∃ r', scfLoop excludeMoves rest (some r) r.count r.value = some r' ∧
      ((r' = r ∧ ∀ c ∈ rest, c.move ∈ excludeMoves ∨ FinalLe c r) ∨
       (∃ pre post, rest = pre ++ r' :: post ∧ r'.move ∉ excludeMoves ∧
         FinalLt r r' ∧
         (∀ c ∈ pre, c.move ∈ excludeMoves ∨ FinalLt c r') ∧
         (∀ c ∈ post, c.move ∈ excludeMoves ∨ FinalLe c r'))) := by
  intro rest
  induction rest with
  | nil =>
      intro r
      exact ⟨r, rfl, Or.inl ⟨rfl, by simp⟩⟩
  | cons c rest ih =>
      intro r
      by_cases hacc : c.count > r.count ∨ (c.count = r.count ∧ c.value > r.value)
      · by_cases hex : c.move ∈ excludeMoves
        · obtain ⟨r', hr', hspec⟩ := ih r
          refine ⟨r', ?_, ?_⟩
          · rw [scfLoop, if_pos hacc, if_pos hex]; exact hr'
          · rcases hspec with ⟨heq, hall⟩ | ⟨pre, post, hsplit, hnex, hlt, hpre, hpost⟩
            · exact Or.inl ⟨heq, by
                intro d hd
                rcases List.mem_cons.mp hd with hd | hd
                · exact Or.inl (hd ▸ hex)
                · exact hall d hd⟩
            · refine Or.inr ⟨c :: pre, post, by rw [hsplit]; rfl, hnex, hlt, ?_, hpost⟩
              intro d hd
              rcases List.mem_cons.mp hd with hd | hd
              · exact Or.inl (hd ▸ hex)
              · exact hpre d hd
        · -- accepted and not excluded: `c` becomes the new result
          obtain ⟨r', hr', hspec⟩ := ih c
          have hrc : FinalLt r c := by
            rcases hacc with h | ⟨h, hv⟩
            · exact Or.inl h
            · exact Or.inr ⟨h.symm, hv⟩
          refine ⟨r', ?_, ?_⟩
          · rw [scfLoop, if_pos hacc, if_neg hex]; exact hr'
          · rcases hspec with ⟨heq, hall⟩ | ⟨pre, post, hsplit, hnex, hlt, hpre, hpost⟩
            · subst heq
              exact Or.inr ⟨[], rest, rfl, hex, hrc, by simp, hall⟩
            · refine Or.inr ⟨c :: pre, post, by rw [hsplit]; rfl, hnex,
                finalLt_trans hrc hlt, ?_, hpost⟩
              intro d hd
              rcases List.mem_cons.mp hd with hd | hd
              · exact Or.inr (hd ▸ hlt)
              · exact hpre d hd
      · -- not accepted: `c` does not beat `r`
        obtain ⟨r', hr', hspec⟩ := ih r
        have hle : FinalLe c r := finalLe_of_not_accept hacc
        refine ⟨r', ?_, ?_⟩
        · rw [scfLoop, if_neg hacc]; exact hr'
        · rcases hspec with ⟨heq, hall⟩ | ⟨pre, post, hsplit, hnex, hlt, hpre, hpost⟩
          · exact Or.inl ⟨heq, by
              intro d hd
              rcases List.mem_cons.mp hd with hd | hd
              · exact Or.inr (hd ▸ hle)
              · exact hall d hd⟩
          · refine Or.inr ⟨c :: pre, post, by rw [hsplit]; rfl, hnex, hlt, ?_, hpost⟩
            intro d hd
            rcases List.mem_cons.mp hd with hd | hd
            · exact Or.inr (hd ▸ finalLt_of_finalLe_of_finalLt hle hlt)
            · exact hpre d hd

/-- Behaviour of the `select_child_final` loop from the initial state
(`result = 0`, `max_count = -1`): as soon as the children have non-negative
counts and one of them is not excluded, the loop returns the first best
non-excluded child. -/
theorem scfLoop_none_spec (excludeMoves : List Nat) :
    ∀ (children : List ChildF),
    (∀ c ∈ children, 0 ≤ c.count) →
    (∃ c ∈ children, c.move ∉ excludeMoves) →
    ∃ r, scfLoop excludeMoves children none (-1) negFloatMax = some r ∧
      FirstBest excludeMoves children r := by
  intro children
  induction children with
  | nil => intro _ hne; simp at hne
  | cons c rest ih =>
      intro hc hne
      have hacc : c.count > (-1 : ℚ) ∨ (c.count = -1 ∧ c.value > negFloatMax) :=
        Or.inl (lt_of_lt_of_le (by norm_num) (hc c (List.mem_cons_self c rest)))
      by_cases hex : c.move ∈ excludeMoves
      · have hne' : ∃ d ∈ rest, d.move ∉ excludeMoves := by
          obtain ⟨d, hd, hdex⟩ := hne
          rcases List.mem_cons.mp hd with hd | hd
          · exact absurd (hd ▸ hex) hdex
          · exact ⟨d, hd, hdex⟩
        obtain ⟨r, hr, pre, post, hsplit, hnex, hpre, hpost⟩ :=
          ih (fun d hd => hc d (List.mem_cons_of_mem c hd)) hne'
        refine ⟨r, ?_, c :: pre, post, by rw [hsplit]; rfl, hnex, ?_, hpost⟩
        · rw [scfLoop, if_pos hacc, if_pos hex]; exact hr
        · intro d hd
          rcases List.mem_cons.mp hd with hd | hd
          · exact Or.inl (hd ▸ hex)
          · exact hpre d hd
      · obtain ⟨r', hr', hspec⟩ := scfLoop_some_spec excludeMoves rest c
        refine ⟨r', ?_, ?_⟩
        · rw [scfLoop, if_pos hacc, if_neg hex]; exact hr'
        · rcases hspec with ⟨heq, hall⟩ | ⟨pre, post, hsplit, hnex, hlt, hpre, hpost⟩
          · subst heq
            exact ⟨[], rest, rfl, hex, by simp, hall⟩
          · refine ⟨c :: pre, post, by rw [hsplit]; rfl, hnex, ?_, hpost⟩
            intro d hd
            rcases List.mem_cons.mp hd with hd | hd
            · exact Or.inr (hd ▸ hlt)
            · exact hpre d hd

/-- C4: for every node with at least one non-excluded child (and the visit
counts non-negative, as they always are), `select_child_final` returns a
child, and that child is the first one in allocation order attaining the
lexicographic maximum of (visit count, value) among the non-excluded
children: excluded children are never returned, higher count wins, value
breaks count ties, and the earlier-allocated child wins full ties. -/
theorem select_child_final_first_best (excludeMoves : List Nat)
    (children : List ChildF)
    (hcount : ∀ c ∈ children, 0 ≤ c.count)
    (hne : ∃ c ∈ children, c.move ∉ excludeMoves) :
    ∃ r, select_child_final excludeMoves children = some r ∧
      FirstBest excludeMoves children r :=
  scfLoop_none_spec excludeMoves children hcount hne

/-- Witness for C4 at a concrete input: three children with counts 5, 5, 3 and
values 1/2, 3/4, 1; the second child (count tie, higher value) is selected. -/
theorem select_child_final_first_best_witness :
    (∀ c ∈ [ChildF.mk 0 5 (1/2), ChildF.mk 1 5 (3/4), ChildF.mk 2 3 1],
      (0 : ℚ) ≤ c.count) ∧
    (∃ c ∈ [ChildF.mk 0 5 (1/2), ChildF.mk 1 5 (3/4), ChildF.mk 2 3 1],
      c.move ∉ ([] : List Nat)) ∧
    (∃ r, select_child_final []
        [ChildF.mk 0 5 (1/2), ChildF.mk 1 5 (3/4), ChildF.mk 2 3 1] = some r ∧
      FirstBest [] [ChildF.mk 0 5 (1/2), ChildF.mk 1 5 (3/4), ChildF.mk 2 3 1] r) :=
  ⟨by decide, by decide,
   select_child_final_first_best [] _ (by decide) (by decide)⟩

/-- The scan `check_move_cannot_change` would need in order to track the true
second-highest count: identical to `cmccScan` except for the second branch,
which records a count lying between `second_max_count` and `max_count`.  This
branch is absent from the source. -/
def secondMaxScan : List ChildF → ℚ → ℚ → ℚ × ℚ
  | [], maxCount, secondMaxCount => (maxCount, secondMaxCount)
  | c :: rest, maxCount, secondMaxCount =>
      if c.count > maxCount then secondMaxScan rest c.count maxCount
      else if c.count > secondMaxCount then secondMaxScan rest maxCount c.count
      else secondMaxScan rest maxCount secondMaxCount

/-- C1 (code bug): `check_move_cannot_change` reports `true` although the
best move can still change.  With root children of visit counts 10 and 9 (in
iteration order), root count 19 and 5 remaining simulations, the scan leaves
`second_max_count = 0` (the branch updating only `second_max_count` is
missing, cf. `secondMaxScan`), so the function returns `true`; but the true
second-highest count is 9 and `10 ≤ 9 + 5`: allocating the 5 remaining
visits to the second child raises its count to 14, which makes it the
most-visited child, so `select_child_final` flips from the first child to the
second. -/
theorem check_move_cannot_change_overreports :
    check_move_cannot_change [ChildF.mk 0 10 0, ChildF.mk 1 9 0] 19 5 = true ∧
    (cmccScan [ChildF.mk 0 10 0, ChildF.mk 1 9 0] 0 0).2 = 0 ∧
    (secondMaxScan [ChildF.mk 0 10 0, ChildF.mk 1 9 0] 0 0).2 = 9 ∧
    ¬ ((10 : ℚ) > 9 + 5) ∧
    (9 : ℚ) + 5 = 14 ∧
    select_child_final [] [ChildF.mk 0 10 0, ChildF.mk 1 9 0] =
      some (ChildF.mk 0 10 0) ∧
    select_child_final [] [ChildF.mk 0 10 0, ChildF.mk 1 14 0] =
      some (ChildF.mk 1 14 0) :=
  ⟨by norm_num [check_move_cannot_change, cmccScan], by decide, by decide,
   by norm_num, by norm_num, by decide, by decide⟩

/-! ## `Search::select_child` (Search.h:1337-1375)

```cpp
Float node_count = node.get_count();
const Node* best_child = 0;
Float best_value = -numeric_limits<Float>::max();
m_bias_term.start_iteration(node_count);
Float beta =
    (m_rave ?
     sqrt(m_rave_equivalence / (3 * node_count + m_rave_equivalence)) : 0);
Float beta_inv = 1 - beta;
for (ChildIterator i(m_tree, node); i; ++i)
{
    Float bias = m_bias_term.get(i->get_count());
    Float value =
        beta * i->get_rave_value() + beta_inv * i->get_value() + bias;
    if (value > best_value)
    {
        best_value = value;
        best_child = &(*i);
    }
}
return best_child;
```

The bias term (`BiasTerm.h` is not under `src/`; per the spec it is a function
of the child count, with `log(node_count)` cached by `start_iteration`) is
passed in as an opaque function of the child count.  `sqrt` forces the value
field `ℝ` here, so this part of the embedding is polymorphic over a linear
ordered field and the claim is stated at `ℝ`. -/

/-- One linked child as seen by `select_child`: move id, visit count, value
and RAVE value. -/
structure ChildR (α : Type) where
  move : Nat
  count : α
  value : α
  raveValue : α

/-- The selection value
`beta * rave_value + (1 - beta) * value + bias(child count)` computed for
each child inside the loop of `select_child`. -/
def uctScore {α : Type} [LinearOrderedField α] (beta : α) (bias : α → α)
    (c : ChildR α) : α :=
  beta * c.raveValue + (1 - beta) * c.value + bias c.count

/-- The loop of `select_child`, carrying `(best_child, best_value)`. -/
def sclLoop {α : Type} [LinearOrderedField α] (beta : α) (bias : α → α) :
    List (ChildR α) → Option (ChildR α) → α → Option (ChildR α)
  | [], bestChild, _ => bestChild
  | c :: rest, bestChild, bestValue =>
      if uctScore beta bias c > bestValue then
        sclLoop beta bias rest (some c) (uctScore beta bias c)
      else sclLoop beta bias rest bestChild bestValue

/-- `Search::select_child(node)`.  `negInf` stands for the initial
`best_value = -numeric_limits<Float>::max()`; it is below every selection
value that can arise. -/
def select_child {α : Type} [LinearOrderedField α] (negInf beta : α)
    (bias : α → α) (children : List (ChildR α)) : Option (ChildR α) :=
  sclLoop beta bias children none negInf

/-- The RAVE mixing weight of `select_child`:
`beta = rave ? sqrt(rave_equivalence / (3 * node_count + rave_equivalence)) : 0`. -/
noncomputable def betaRave (rave : Bool) (raveEquivalence nodeCount : ℝ) : ℝ :=
  if rave then Real.sqrt (raveEquivalence / (3 * nodeCount + raveEquivalence))
  else 0

/-- Behaviour of the `select_child` loop once a best child `r` is installed
(`best_value = uctScore r`): either `r` survives and nothing in the rest has
a strictly larger selection value, or the result is the first strict
improvement. -/
theorem sclLoop_some_spec {α : Type} [LinearOrderedField α] (beta : α)
    (bias : α → α) :
    ∀ (rest : List (ChildR α)) (r : ChildR α),
    ∃ r', sclLoop beta bias rest (some r) (uctScore beta bias r) = some r' ∧
      ((r' = r ∧ ∀ c ∈ rest, uctScore beta bias c ≤ uctScore beta bias r) ∨
       (∃ pre post, rest = pre ++ r' :: post ∧
         uctScore beta bias r < uctScore beta bias r' ∧
         (∀ c ∈ pre, uctScore beta bias c < uctScore beta bias r') ∧
         (∀ c ∈ post, uctScore beta bias c ≤ uctScore beta bias r'))) := by
  intro rest
  induction rest with
  | nil => intro r; exact ⟨r, rfl, Or.inl ⟨rfl, by simp⟩⟩
  | cons c rest ih =>
      intro r
      by_cases hacc : uctScore beta bias c > uctScore beta bias r
      · obtain ⟨r', hr', hspec⟩ := ih c
        refine ⟨r', ?_, ?_⟩
        · rw [sclLoop, if_pos hacc]; exact hr'
        · rcases hspec with ⟨heq, hall⟩ | ⟨pre, post, hsplit, hlt, hpre, hpost⟩
          · subst heq
            exact Or.inr ⟨[], rest, rfl, hacc, by simp, hall⟩
          · refine Or.inr ⟨c :: pre, post, by rw [hsplit]; rfl,
              hacc.trans hlt, ?_, hpost⟩
            intro d hd
            rcases List.mem_cons.mp hd with hd | hd
            · exact hd ▸ hlt
            · exact hpre d hd
      · obtain ⟨r', hr', hspec⟩ := ih r
        have hle : uctScore beta bias c ≤ uctScore beta bias r := not_lt.mp hacc
        refine ⟨r', ?_, ?_⟩
        · rw [sclLoop, if_neg hacc]; exact hr'
        · rcases hspec with ⟨heq, hall⟩ | ⟨pre, post, hsplit, hlt, hpre, hpost⟩
          · refine Or.inl ⟨heq, ?_⟩
            intro d hd
            rcases List.mem_cons.mp hd with hd | hd
            · exact hd ▸ hle
            · exact hall d hd
          · refine Or.inr ⟨c :: pre, post, by rw [hsplit]; rfl, hlt, ?_, hpost⟩
            intro d hd
            rcases List.mem_cons.mp hd with hd | hd
            · exact hd ▸ (hle.trans_lt hlt)
            · exact hpre d hd

/-- C5: for every node with linked children (every selection value being
above the `-FLT_MAX` sentinel, as always), `select_child` with
`beta = betaRave rave rave_equivalence node_count` — `0` when RAVE is
disabled, `sqrt(rave_equivalence / (3·node_count + rave_equivalence))` when
enabled — returns the first child in allocation order maximizing
`beta * rave_value + (1 - beta) * value + bias(child count)`; ties are won by
the first child encountered. -/
theorem select_child_first_argmax (rave : Bool)
    (raveEquivalence nodeCount negInf : ℝ) (bias : ℝ → ℝ)
    (children : List (ChildR ℝ))
    (hne : children ≠ [])
    (hInf : ∀ c ∈ children,
      negInf < uctScore (betaRave rave raveEquivalence nodeCount) bias c) :
    ∃ r pre post,
      select_child negInf (betaRave rave raveEquivalence nodeCount) bias
          children = some r ∧
      children = pre ++ r :: post ∧
      (∀ c ∈ pre, uctScore (betaRave rave raveEquivalence nodeCount) bias c <
        uctScore (betaRave rave raveEquivalence nodeCount) bias r) ∧
      (∀ c ∈ post, uctScore (betaRave rave raveEquivalence nodeCount) bias c ≤
        uctScore (betaRave rave raveEquivalence nodeCount) bias r) := by
  set beta := betaRave rave raveEquivalence nodeCount with hbeta
  match children, hne with
  | c :: rest, _ =>
    have hacc : uctScore beta bias c > negInf :=
      hInf c (List.mem_cons_self c rest)
    obtain ⟨r', hr', hspec⟩ := sclLoop_some_spec beta bias rest c
    rw [select_child, sclLoop, if_pos hacc]
    rcases hspec with ⟨heq, hall⟩ | ⟨pre, post, hsplit, hlt, hpre, hpost⟩
    · exact ⟨c, [], rest, heq ▸ hr', rfl, by simp, heq ▸ hall⟩
    · refine ⟨r', c :: pre, post, hr', by rw [hsplit]; rfl, ?_, hpost⟩
      intro d hd
      rcases List.mem_cons.mp hd with hd | hd
      · exact hd ▸ hlt
      · exact hpre d hd

/-- Witness for C5 at a concrete input: RAVE disabled (`beta = 0`), zero bias,
two children of values 1/2 and 3/4; the second child has the larger selection
value. -/
theorem select_child_first_argmax_witness :
    (ChildR.mk 0 1 (1/2) 0 :: [ChildR.mk 1 1 (3/4) 0] ≠ []) ∧
    (∀ c ∈ [ChildR.mk 0 1 (1/2) 0, ChildR.mk 1 1 (3/4) 0],
      (-1 : ℝ) < uctScore (betaRave false 1000 0) (fun _ => 0) c) ∧
    (∃ r pre post,
      select_child (-1) (betaRave false 1000 0) (fun _ => 0)
          [ChildR.mk 0 1 (1/2) 0, ChildR.mk 1 1 (3/4) 0] = some r ∧
      [ChildR.mk 0 1 (1/2) 0, ChildR.mk 1 1 (3/4) 0] = pre ++ r :: post ∧
      (∀ c ∈ pre, uctScore (betaRave false 1000 0) (fun _ => 0) c <
        uctScore (betaRave false 1000 0) (fun _ => 0) r) ∧
      (∀ c ∈ post, uctScore (betaRave false 1000 0) (fun _ => 0) c ≤
        uctScore (betaRave false 1000 0) (fun _ => 0) r)) := by
  have h : ∀ c ∈ [ChildR.mk 0 1 (1/2) 0, ChildR.mk 1 1 (3/4) 0],
      (-1 : ℝ) < uctScore (betaRave false 1000 0) (fun _ => 0) c := by
    intro c hc
    fin_cases hc <;> norm_num [uctScore, betaRave]
  exact ⟨by simp, h,
    select_child_first_argmax false 1000 0 (-1) (fun _ => 0) _ (by simp) h⟩

/-! ## `Search::update_rave_values` per-node update (Search.h:1577-1629)

For the node at path index `i` and `player` (the player who moved at ply
`i`), for each linked child with move id `m`:

```cpp
unsigned first = first_play[player][m];
if (first == numeric_limits<unsigned>::max())
    continue;
if (m_rave_check_same)
{
    bool other_played_same = false;
    for (unsigned i = 0; i < nu_players; ++i)   // shadows the outer i!
        if (i != player)
        {
            unsigned first_other = first_play[i][m];
            if (first_other >= i && first_other <= first)
            {
                other_played_same = true;
                break;
            }
        }
    if (other_played_same)
        continue;
}
Float weight;
if (m_weight_rave_updates)
    weight = 2 - Float(first - i) * weight_factor;   // weight_factor = 1/(len-i)
else
    weight = 1;
m_tree.add_rave_value(*it, eval[player], weight);
```

`first_play` is the per-player scratch array mapping each move id to the
first ply (≥ the current path index) at which that player played the move,
or `UINT_MAX` when the player did not play it. -/

/-- `numeric_limits<unsigned>::max()`. -/
def UINT_MAX : Nat := 4294967295

/-- The `rave_check_same` inner loop as written in the source: the loop
variable shadows the outer node index `i`, so the lower bound of the window
test is the *player index* of the inner loop, not the node index. -/
def other_played_same (nuPlayers player : Nat) (firstPlay : Nat → Nat → Nat)
    (m first : Nat) : Bool :=
  (List.range nuPlayers).any fun i =>
    decide (i ≠ player ∧ i ≤ firstPlay i m ∧ firstPlay i m ≤ first)

/-- The per-child decision of the RAVE backup at node index `i` for `player`:
`some weight` when the child's RAVE statistic is updated (with that weight),
`none` when the update is skipped. `len` is `state.get_nu_moves()`. -/
def rave_update_weight (raveCheckSame weightRaveUpdates : Bool)
    (nuPlayers player i len : Nat) (firstPlay : Nat → Nat → Nat) (m : Nat) :
    Option ℚ :=
  let first := firstPlay player m
  if first = UINT_MAX then none
  else if raveCheckSame &&
      other_played_same nuPlayers player firstPlay m first then none
  else
    let weightFactor : ℚ := 1 / ((len - i : Nat) : ℚ)
    some (if weightRaveUpdates then 2 - ((first - i : Nat) : ℚ) * weightFactor
          else 1)

/-- Modelled from the spec: the check C2 (and the spec's §9 note) intends —
skip the RAVE update of child move `m` for `player` at node index `i` iff
some *other* player's first play of `m` lies between `i` and `player`'s first
play `first` of `m`. -/
def other_played_same_intended (nuPlayers player i first : Nat)
    (firstPlay : Nat → Nat → Nat) (m : Nat) : Bool :=
  (List.range nuPlayers).any fun q =>
    decide (q ≠ player ∧ i ≤ firstPlay q m ∧ firstPlay q m ≤ first)

/-- First-play scratch array of the C2 scenario: move 7 is first played by
player 0 at ply 3 and by player 2 at ply 1; no other plays. -/
def firstPlayC2 : Nat → Nat → Nat := fun q n =>
  if q = 0 ∧ n = 7 then 3 else if q = 2 ∧ n = 7 then 1 else UINT_MAX

/-- C2 (code bug): with `rave_check_same` enabled, 3 players, node index
`i = 0` whose player is 0, and a linked child move 7 that player 0 first
plays at ply 3 while player 2 first plays it at ply 1 — i.e. another
player's first play lies between the node and player 0's first play, so the
claim requires the update to be skipped — the code still performs the RAVE
update: the shadowed loop variable makes it test `first_other >= 2` (the
player index) instead of `first_other >= 0` (the node index), and `1 < 2`. -/
theorem update_rave_values_check_same_divergence :
    rave_update_weight true true 3 0 0 4 firstPlayC2 7 ≠ none ∧
    other_played_same_intended 3 0 0 (firstPlayC2 0 7) firstPlayC2 7 = true ∧
    firstPlayC2 0 7 = 3 ∧ firstPlayC2 2 7 = 1 := by
  refine ⟨by decide, by decide, by decide, by decide⟩

/-! ## The reuse decision of `Search::search` (Search.h:1133-1213)

The controller's decision, at the start of a search, whether to reuse (a
subtree of) the previous tree, clear it, or abort.  Data obtained from
collaborators is passed in as explicit inputs: the result of
`check_followup` (`isFollowupRet`, `seqLen`), the parameter comparison
`get_reuse_param() == get_last_reuse_param()` (`reuseParamEq`), the node
counts of the two arenas, whether `find_node` located the follow-up node,
and whether `extract_subtree` was aborted by the time limit or the global
abort flag. -/

structure SearchInput where
  reuseSubtree : Bool     -- m_reuse_subtree
  reuseTree : Bool        -- m_reuse_tree
  isFollowupRet : Bool    -- return value of check_followup(m_followup_sequence)
  seqLen : Nat            -- m_followup_sequence.size()
  nuPlayers : Nat         -- get_nu_players()
  reuseParamEq : Bool     -- get_reuse_param() == get_last_reuse_param()
  treeNodes : Nat         -- m_tree.get_nu_nodes()
  nodeFound : Bool        -- find_node(m_tree, m_followup_sequence) != 0
  extractAborted : Bool   -- ! m_tree.extract_subtree(...)
  tmpTreeNodes : Nat      -- m_tmp_tree.get_nu_nodes() after extraction
  tmpRootCount : ℚ        -- m_tmp_tree.get_root().get_count() after extraction
  alwaysSearch : Bool
  deriving DecidableEq

inductive SearchPrepResult where
  /-- `search` hit `if (aborted && ! always_search) return false;`
  (Search.h:1193-1194): it returns `false` without writing to the output
  move, without clearing or swapping the tree and without running
  `search_loop`. -/
  | returnNoMove : SearchPrepResult
  /-- `search` goes on to launch `search_loop`; `clearTree` tells whether
  `m_tree.clear(...)` ran at Search.h:1212-1213 (`false` means the extracted
  subtree was swapped in), `reuseCount` is the resulting `m_reuse_count`. -/
  | proceed (clearTree : Bool) (reuseCount : ℚ) : SearchPrepResult
  deriving DecidableEq

structure SearchPrep where
  /-- the gate at Search.h:1157: `is_same || (is_followup &&
  m_followup_sequence.size() <= nu_players)`, controlling whether
  `m_init_val` is seeded from the previous `m_root_val`. -/
  initValFromRootVal : Bool
  result : SearchPrepResult
  deriving DecidableEq

/-- The reuse decision of `Search::search`, faithful to the control flow of
Search.h:1144-1213. -/
def search_prep (inp : SearchInput) : SearchPrep :=
  -- Search.h:1145-1151
  let isSame := inp.isFollowupRet && inp.seqLen == 0
  let isFollowup := inp.isFollowupRet && !(inp.seqLen == 0)
  -- Search.h:1157-1160
  let initValGate := isSame ||
    (isFollowup && decide (inp.seqLen ≤ inp.nuPlayers))
  -- Search.h:1162-1213; m_reuse_count = 0 beforehand (1161), clear_tree = true (1144)
  if ((inp.reuseSubtree && isFollowup) || (inp.reuseTree && isSame)) &&
      inp.reuseParamEq then
    if inp.seqLen == 0 then
      -- Search.h:1166-1171: only logs; clear_tree is left true
      ⟨initValGate, .proceed true 0⟩
    else if inp.nodeFound then
      -- Search.h:1182-1192
      let reuseCount : ℚ := if !isSame then inp.tmpRootCount else 0
      if inp.extractAborted && !inp.alwaysSearch then
        ⟨initValGate, .returnNoMove⟩
      else if decide (1 < inp.treeNodes) && decide (1 < inp.tmpTreeNodes) then
        -- Search.h:1196-1208: swap in the extracted subtree
        ⟨initValGate, .proceed false reuseCount⟩
      else ⟨initValGate, .proceed true reuseCount⟩
    else ⟨initValGate, .proceed true 0⟩
  else ⟨initValGate, .proceed true 0⟩

/-- C3 counterexample input: a follow-up sequence of length 3 with 2 players
(longer than the number of players), subtree reuse enabled, reuse parameters
unchanged, target node found, extraction not aborted, both trees nontrivial. -/
def reuseLongSeqInput : SearchInput :=
  ⟨true, false, true, 3, 2, true, 100, true, false, 50, 40, true⟩

/-- C3 counterexample: the follow-up sequence is longer than the number of
players, yet `search` swaps in the extracted subtree instead of clearing the
tree — the `size() <= nu_players` comparison only gates the seeding of the
per-player init values, not reuse. -/
theorem search_reuse_long_sequence_counterexample :
    reuseLongSeqInput.nuPlayers < reuseLongSeqInput.seqLen ∧
    (search_prep reuseLongSeqInput).result = .proceed false 40 := by
  refine ⟨by decide, by decide⟩

/-- C3 (amended): `search` reuses a subtree (does not clear the tree)
exactly when subtree reuse is enabled, the position is a follow-up with a
nonempty move sequence, the reuse-relevant parameters are unchanged, the
follow-up node is found, the extraction was not fatally aborted
(aborted implies `always_search`), and both the old tree and the extracted
subtree have more than one node — with no restriction on the length of the
follow-up sequence. -/
theorem search_reuse_decision_characterization (inp : SearchInput) :
    (∃ rc, (search_prep inp).result = .proceed false rc) ↔
      (inp.reuseSubtree = true ∧ inp.isFollowupRet = true ∧ inp.seqLen ≠ 0 ∧
       inp.reuseParamEq = true ∧ inp.nodeFound = true ∧
       (inp.extractAborted = false ∨ inp.alwaysSearch = true) ∧
       1 < inp.treeNodes ∧ 1 < inp.tmpTreeNodes) := by
  obtain ⟨rs, rt, fr, sl, np, rp, tn, nf, ea, ttn, trc, alws⟩ := inp
  simp only [search_prep]
  split_ifs with h1 h2 h3 h4 h5 <;>
    simp_all [Bool.and_eq_true, Bool.or_eq_true, Bool.not_eq_true',
      beq_iff_eq]
  cases ea <;> simp_all

/-- C6: if the extraction of the reuse subtree was aborted (time limit or
global abort flag): with `always_search = false`, `search` returns `false`
without launching the search loop and without writing a move
(`.returnNoMove`); with `always_search = true` it proceeds to the search
loop, and whenever the partially extracted subtree is nontrivial (more than
one node, old tree nontrivial too) that partial subtree is swapped in, with
its root count recorded as the reuse count. -/
theorem search_reuse_aborted_policy (inp : SearchInput)
    (hfr : inp.isFollowupRet = true) (hsl : inp.seqLen ≠ 0)
    (hrs : inp.reuseSubtree = true) (hrp : inp.reuseParamEq = true)
    (hnf : inp.nodeFound = true) (hab : inp.extractAborted = true) :
    (inp.alwaysSearch = false →
      (search_prep inp).result = .returnNoMove) ∧
    (inp.alwaysSearch = true →
      (∃ ct rc, (search_prep inp).result = .proceed ct rc) ∧
      (1 < inp.treeNodes → 1 < inp.tmpTreeNodes →
        (search_prep inp).result = .proceed false inp.tmpRootCount)) := by
  obtain ⟨rs, rt, fr, sl, np, rp, tn, nf, ea, ttn, trc, alws⟩ := inp
  simp only at hfr hsl hrs hrp hnf hab
  subst hfr hrs hrp hnf hab
  simp only [search_prep]
  split_ifs with h1 h2 h3 h4 h5 <;>
    simp_all [Bool.and_eq_true, Bool.or_eq_true, Bool.not_eq_true',
      beq_iff_eq]

/-- Witness input for C6: follow-up of length 1, reuse enabled and permitted,
node found, extraction aborted, `always_search = false`. -/
def reuseAbortedInput : SearchInput :=
  ⟨true, false, true, 1, 2, true, 100, true, true, 60, 30, false⟩

/-- Witness for C6: on `reuseAbortedInput` the search returns "no move". -/
theorem search_reuse_aborted_policy_witness :
    reuseAbortedInput.extractAborted = true ∧
    reuseAbortedInput.alwaysSearch = false ∧
    (search_prep reuseAbortedInput).result = .returnNoMove :=
  ⟨by decide, by decide,
   (search_reuse_aborted_policy reuseAbortedInput (by decide) (by decide)
     (by decide) (by decide) (by decide) (by decide)).1 (by decide)⟩

/-! ## `Search::prune` threshold update (Search.h:1096-1130)

After the low-count subtree copy into the scratch arena succeeded and the
arenas were swapped:

```cpp
int percent = int(m_tmp_tree.get_nu_nodes() * 100 / m_tree.get_nu_nodes());
...
m_tree.swap(m_tmp_tree);
if (percent > 50)
{
    if (prune_min_count >= 0.5 * numeric_limits<Float>::max())
        return false;
    new_prune_min_count = prune_min_count * 2;
    return true;
}
else
{
    new_prune_min_count = prune_min_count;
    return true;
}
```
-/

/-- Stand-in for `numeric_limits<Float>::max()` in the prune threshold
guard; the embedding keeps it as a parameter `floatMax`. -/
def prune_update (tmpNodes treeNodes : Nat) (pruneMinCount floatMax : ℚ) :
    Option ℚ :=
  let percent : Nat := tmpNodes * 100 / treeNodes
  if percent > 50 then
    if pruneMinCount ≥ (1 / 2) * floatMax then none
    else some (pruneMinCount * 2)
  else some pruneMinCount

/-- C7 counterexample: a prune pass that retains 101 of 200 nodes — a
retained fraction of 50.5%, strictly above 50% — leaves the threshold at 16
instead of doubling it: the code compares the integer percentage
`101 * 100 / 200 = 50` against 50. -/
theorem prune_update_counterexample :
    (1 : ℚ) / 2 < 101 / 200 ∧
    prune_update 101 200 16 (2 ^ 128) = some 16 ∧
    (16 : ℚ) ≠ 16 * 2 := by
  refine ⟨by norm_num, ?_, by norm_num⟩
  norm_num [prune_update]

/-- C7 (amended): after a successful prune pass the threshold for the next
cycle doubles exactly when the integer percentage
`retained * 100 / total` (integer division) exceeds 50 — equivalently
`51 * total ≤ 100 * retained` — and the current threshold is below half of
the maximum representable count; when the percentage exceeds 50 but the
threshold has reached half of the maximum, the pass reports failure (the
search ends) rather than capping; otherwise the threshold is unchanged. -/
theorem prune_update_characterization (tmpNodes treeNodes : Nat)
    (pruneMinCount floatMax : ℚ) (hpos : 0 < treeNodes) :
    (51 * treeNodes ≤ 100 * tmpNodes →
      (pruneMinCount < (1 / 2) * floatMax →
        prune_update tmpNodes treeNodes pruneMinCount floatMax =
          some (pruneMinCount * 2)) ∧
      ((1 / 2) * floatMax ≤ pruneMinCount →
        prune_update tmpNodes treeNodes pruneMinCount floatMax = none)) ∧
    (100 * tmpNodes < 51 * treeNodes →
      prune_update tmpNodes treeNodes pruneMinCount floatMax =
        some pruneMinCount) := by
  have hdiv : 50 < tmpNodes * 100 / treeNodes ↔
      51 * treeNodes ≤ 100 * tmpNodes := by
    rw [Nat.lt_iff_add_one_le, Nat.le_div_iff_mul_le hpos]
    omega
  refine ⟨fun hge => ?_, fun hlt => ?_⟩
  · have hp : 50 < tmpNodes * 100 / treeNodes := hdiv.mpr hge
    refine ⟨fun hless => ?_, fun hmore => ?_⟩
    · simp only [prune_update]
      rw [if_pos hp, if_neg (not_le.mpr hless)]
    · simp only [prune_update]
      rw [if_pos hp, if_pos hmore]
  · have hp : ¬ 50 < tmpNodes * 100 / treeNodes := by
      rw [hdiv]; omega
    simp only [prune_update, if_neg hp]

/-- Witness for C7 (amended): retaining 102 of 200 nodes (integer percentage
51) doubles the threshold from 16 to 32. -/
theorem prune_update_characterization_witness :
    0 < 200 ∧ 51 * 200 ≤ 100 * 102 ∧ (16 : ℚ) < (1 / 2) * 2 ^ 128 ∧
    prune_update 102 200 16 (2 ^ 128) = some (16 * 2) :=
  ⟨by norm_num, by norm_num, by norm_num,
   ((prune_update_characterization 102 200 16 (2 ^ 128)
     (by norm_num)).1 (by norm_num)).1 (by norm_num)⟩

/-! ## `Search::get_max_nodes` (Search.h:865-876)

```cpp
// Memory is used for 2 trees (m_tree and m_tmp_tree)
size_t max_nodes = memory / sizeof(Node) / 2;
// It doesn't make sense to set max_nodes higher than what can be accessed
// with NodeIndex
max_nodes =
    min(max_nodes, static_cast<size_t>(numeric_limits<NodeIndex>::max()));
return max_nodes;
```

`sizeof(Node)` and the `NodeIndex` type (declared in `Node.h`/`Tree.h`,
which are not under `src/`; per the spec, indices are "a compact integer
type sized to the arena") are kept as parameters `nodeSize` and
`nodeIndexMax`. -/

def get_max_nodes (nodeSize nodeIndexMax memory : Nat) : Nat :=
  min (memory / nodeSize / 2) nodeIndexMax

/-- C9 counterexample: with 64-byte nodes and a 32-bit `NodeIndex`, a memory
budget of `2^40` bytes gives `min(2^33, 2^32 - 1) = 2^32 - 1` nodes per
arena, not `memory / (2 * sizeof(Node)) = 2^33`: the claimed identity fails
whenever the memory budget exceeds what `NodeIndex` can address. -/
theorem get_max_nodes_counterexample :
    get_max_nodes 64 (2 ^ 32 - 1) (2 ^ 40) ≠ 2 ^ 40 / (2 * 64) := by
  decide

/-- C9 (amended): each arena's node capacity is the *minimum* of
`memory / (2 * sizeof(Node))` (integer division) and the largest value
representable in `NodeIndex`. -/
theorem get_max_nodes_eq_min (nodeSize nodeIndexMax memory : Nat) :
    get_max_nodes nodeSize nodeIndexMax memory =
      min (memory / (2 * nodeSize)) nodeIndexMax := by
  unfold get_max_nodes
  rw [Nat.div_div_eq_div_mul, Nat.mul_comm nodeSize 2]

/-! ## The termination guard of `Search::search_loop` (Search.h:1286-1335)

```cpp
while (true)
{
    thread_state.is_out_of_mem = false;
    size_t nu_simulations = m_nu_simulations.fetch_add(1);
    Float root_count = m_tree.get_root().get_count();
    if (root_count > 0 && nu_simulations > m_min_simulations
        && (check_abort(thread_state) || expensive_abort_checker()))
        break;
    ...
    play_in_tree(thread_state, is_terminal);
    if (thread_state.is_out_of_mem)
        return;
    ... // complete the simulation (playout, evaluation, backup)
}
```

Each iteration is driven by a `LoopObs`: the root count observed after the
`fetch_add`, the values the two abort predicates would return if consulted,
and whether the simulation would exhaust the arena.  The run records, for
each iteration in which the termination predicates were actually evaluated
(the `&&` chain reached them), the simulation counter and root count at that
point. -/

structure LoopObs where
  rootCount : ℚ      -- m_tree.get_root().get_count() + (not incl. m_reuse_count; see check_abort)
  cheapAbort : Bool  -- what check_abort(thread_state) would return
  expensiveAbort : Bool  -- what expensive_abort_checker() would return
  outOfMem : Bool    -- whether play_in_tree sets is_out_of_mem

inductive LoopExit where
  | broke : LoopExit     -- `break`: a termination predicate fired
  | outOfMem : LoopExit  -- `return` on is_out_of_mem
  | fuelOut : LoopExit   -- the supplied observation trace was exhausted
  deriving DecidableEq

structure LoopRun where
  exit : LoopExit
  /-- completed simulations (iterations that ran through backup). -/
  completed : Nat
  /-- (counter, root count) at every evaluation of the termination
  predicates (cheap or expensive). -/
  evals : List (Nat × ℚ)

/-- The `search_loop` iteration structure: `k` is the value the next
`fetch_add` returns (number of simulations started before this iteration). -/
def search_loop_go (minSimulations : ℚ) :
    Nat → Nat → List (Nat × ℚ) → List LoopObs → LoopRun
  | _, completed, evals, [] => ⟨.fuelOut, completed, evals⟩
  | k, completed, evals, o :: rest =>
      if 0 < o.rootCount ∧ minSimulations < (k : ℚ) then
        -- the && chain reaches the termination predicates
        if o.cheapAbort || o.expensiveAbort then
          ⟨.broke, completed, evals ++ [(k, o.rootCount)]⟩
        else if o.outOfMem then ⟨.outOfMem, completed, evals ++ [(k, o.rootCount)]⟩
        else search_loop_go minSimulations (k + 1) (completed + 1)
              (evals ++ [(k, o.rootCount)]) rest
      else if o.outOfMem then ⟨.outOfMem, completed, evals⟩
      else search_loop_go minSimulations (k + 1) (completed + 1) evals rest

/-- One thread's `search_loop` on a trace of per-iteration observations. -/
def search_loop_run (minSimulations : ℚ) (obs : List LoopObs) : LoopRun :=
  search_loop_go minSimulations 0 0 [] obs

theorem search_loop_go_spec (minSimulations : ℚ) :
    ∀ (obs : List LoopObs) (k : Nat) (evals : List (Nat × ℚ)),
    (∀ p ∈ evals, 0 < p.2 ∧ minSimulations < (p.1 : ℚ)) →
    (∀ p ∈ (search_loop_go minSimulations k k evals obs).evals,
        0 < p.2 ∧ minSimulations < (p.1 : ℚ)) ∧
    ((search_loop_go minSimulations k k evals obs).exit = .broke →
      minSimulations <
        ((search_loop_go minSimulations k k evals obs).completed : ℚ)) := by
  intro obs
  induction obs with
  | nil =>
      intro k evals hev
      exact ⟨hev, by intro h; exact absurd h (by simp [search_loop_go])⟩
  | cons o rest ih =>
      intro k evals hev
      by_cases hguard : 0 < o.rootCount ∧ minSimulations < (k : ℚ)
      · have hev' : ∀ p ∈ evals ++ [(k, o.rootCount)],
            0 < p.2 ∧ minSimulations < (p.1 : ℚ) := by
          intro p hp
          rcases List.mem_append.mp hp with hp | hp
          · exact hev p hp
          · simp only [List.mem_singleton] at hp
            exact hp ▸ ⟨hguard.1, hguard.2⟩
        by_cases habort : o.cheapAbort || o.expensiveAbort
        · rw [search_loop_go, if_pos hguard, if_pos habort]
          exact ⟨hev', fun _ => hguard.2⟩
        · by_cases hmem : o.outOfMem
          · rw [search_loop_go, if_pos hguard, if_neg habort, if_pos hmem]
            exact ⟨hev', by intro h; exact absurd h (by simp)⟩
          · rw [search_loop_go, if_pos hguard, if_neg habort, if_neg hmem]
            exact ih (k + 1) (evals ++ [(k, o.rootCount)]) hev'
      · by_cases hmem : o.outOfMem
        · rw [search_loop_go, if_neg hguard, if_pos hmem]
          exact ⟨hev, by intro h; exact absurd h (by simp)⟩
        · rw [search_loop_go, if_neg hguard, if_neg hmem]
          exact ih (k + 1) evals hev

/-- C8: in every run of the `search_loop` iteration structure, (a) whenever
the termination predicates (the cheap `check_abort` and the expensive
checker) are evaluated, the root's visit count is positive and the number
of already-started simulations exceeds `m_min_simulations` — before that
point neither predicate is reached by the short-circuit chain — and (b) if
the loop exits through `break` (an early-termination predicate fired), more
than `m_min_simulations` simulations were completed; only the out-of-memory
`return` is exempt. -/
theorem search_loop_min_simulations (minSimulations : ℚ)
    (obs : List LoopObs)
    (hexit : (search_loop_run minSimulations obs).exit = .broke) :
    (∀ p ∈ (search_loop_run minSimulations obs).evals,
        0 < p.2 ∧ minSimulations < (p.1 : ℚ)) ∧
    minSimulations < ((search_loop_run minSimulations obs).completed : ℚ) := by
  have h := search_loop_go_spec minSimulations obs 0 [] (by simp)
  exact ⟨h.1, h.2 hexit⟩

/-- Witness for C8: with `min_simulations = 2` and a trace whose predicates
would fire from the start, the loop still completes 3 simulations before
breaking. -/
theorem search_loop_min_simulations_witness :
    (search_loop_run 2 [⟨0, true, true, false⟩, ⟨1, true, true, false⟩,
      ⟨2, true, true, false⟩, ⟨3, true, true, false⟩]).exit = .broke ∧
    (2 : ℚ) < ((search_loop_run 2 [⟨0, true, true, false⟩,
      ⟨1, true, true, false⟩, ⟨2, true, true, false⟩,
      ⟨3, true, true, false⟩]).completed : ℚ) := by
  constructor
  · norm_num [search_loop_run, search_loop_go]
  · exact (search_loop_min_simulations 2 _
      (by norm_num [search_loop_run, search_loop_go])).2

end LibboardgameMcts

namespace LibboardgameUtil

/-! ## `IntervalChecker::check_expensive` (IntervalChecker.cpp:47-97)

```cpp
bool IntervalChecker::check_expensive()
{
    if (m_result)
        return true;
    if (m_is_deterministic)
    {
        m_result = m_function();
        m_count = m_count_interval;
        return m_result;
    }
    double time = m_time_source();
    if (! m_is_first_check)
    {
        double diff = time - m_last_time;
        double adjust_factor;
        if (diff == 0)
            adjust_factor = 10;
        else
        {
            adjust_factor = m_time_interval / diff;
            if (adjust_factor > 10)
                adjust_factor = 10;
            else if (adjust_factor < 0.1)
                adjust_factor = 0.1;
        }
        double new_count_interval = adjust_factor * double(m_count_interval);
        if (new_count_interval > double(numeric_limits<unsigned int>::max()))
            m_count_interval = numeric_limits<unsigned int>::max();
        else if (new_count_interval < 1)
            m_count_interval = 1;
        else
            m_count_interval = (unsigned int)(new_count_interval);
        m_result = m_function();
    }
    else
        m_is_first_check = false;
    m_last_time = time;
    m_count = m_count_interval;
    return m_result;
}
```

The time source and the wrapped predicate are collaborators: each call takes
the value the time source would deliver and the value the predicate would
deliver, and the output records whether they were actually consulted. -/

/-- `numeric_limits<unsigned int>::max()`. -/
def uintMax : Nat := 4294967295

/-- The member state of an `IntervalChecker`. -/
structure ICState where
  isFirstCheck : Bool
  isDeterministic : Bool
  result : Bool
  count : Nat
  countInterval : Nat
  lastTime : ℚ
  timeInterval : ℚ
  deriving DecidableEq

/-- Result of one call to `check_expensive`: the returned boolean, the
post-state, and whether the wrapped predicate / the time source were
invoked during the call. -/
structure ICOut where
  ret : Bool
  state : ICState
  fnCalled : Bool
  timeCalled : Bool

/-- `IntervalChecker::check_expensive`, with `time` the value
`m_time_source()` would deliver and `fres` the value `m_function()` would
deliver if consulted. -/
def check_expensive (s : ICState) (time : ℚ) (fres : Bool) : ICOut :=
  if s.result then ⟨true, s, false, false⟩
  else if s.isDeterministic then
    ⟨fres, { s with result := fres, count := s.countInterval }, true, false⟩
  else if ! s.isFirstCheck then
    let diff := time - s.lastTime
    let adjustFactor : ℚ :=
      if diff = 0 then 10
      else
        let af := s.timeInterval / diff
        if af > 10 then 10 else if af < 1 / 10 then 1 / 10 else af
    let newCountInterval : ℚ := adjustFactor * (s.countInterval : ℚ)
    let countInterval' : Nat :=
      if newCountInterval > (uintMax : ℚ) then uintMax
      else if newCountInterval < 1 then 1
      else Nat.floor newCountInterval
    ⟨fres, { s with result := fres
                    countInterval := countInterval'
                    lastTime := time
                    count := countInterval' }, true, true⟩
  else
    ⟨s.result, { s with isFirstCheck := false
                        lastTime := time
                        count := s.countInterval }, false, true⟩

/-- A sequence of calls to `check_expensive`, one per element of `inputs`
(time-source value, predicate value), threading the state. -/
def run_check_expensive (s : ICState) : List (ℚ × Bool) → List ICOut
  | [] => []
  | (t, f) :: rest =>
      let o := check_expensive s t f
      o :: run_check_expensive o.state rest

/-- C10: the result of `IntervalChecker::check_expensive` latches.  (a) Any
call that actually invokes the wrapped predicate and sees it return `true`
leaves `m_result = true`; (b) from a state with `m_result = true`, every
subsequent call returns `true` immediately: it invokes neither the predicate
nor the time source and leaves the whole state unchanged. -/
theorem check_expensive_latches (s : ICState) (t : ℚ) (f : Bool)
    (inputs : List (ℚ × Bool)) :
    ((check_expensive s t f).fnCalled = true → f = true →
      (check_expensive s t f).state.result = true) ∧
    (s.result = true →
      ∀ o ∈ run_check_expensive s inputs,
        o.ret = true ∧ o.fnCalled = false ∧ o.timeCalled = false ∧
        o.state = s) := by
  constructor
  · intro hfn hf
    subst hf
    unfold check_expensive at hfn ⊢
    split_ifs at hfn ⊢ <;> simp_all
  · intro hres
    induction inputs generalizing s with
    | nil => intro o ho; simp [run_check_expensive] at ho
    | cons p rest ih =>
        intro o ho
        obtain ⟨tp, fp⟩ := p
        have hco : check_expensive s tp fp = ⟨true, s, false, false⟩ := by
          unfold check_expensive
          rw [if_pos hres]
        rw [run_check_expensive] at ho
        simp only [hco] at ho
        rcases List.mem_cons.mp ho with ho | ho
        · exact ho ▸ ⟨rfl, rfl, rfl, rfl⟩
        · exact ih s hres o ho

/-- A latched checker state: `m_result` is already `true`. -/
def latchedState : ICState := ⟨false, false, true, 3, 7, 0, 1⟩

/-- Witness for C10: from `latchedState`, two further calls (with arbitrary
time-source and predicate values) both return `true` without consulting
either collaborator and leave the state unchanged. -/
theorem check_expensive_latches_witness :
    latchedState.result = true ∧
    (∀ o ∈ run_check_expensive latchedState [(5, false), (6, true)],
      o.ret = true ∧ o.fnCalled = false ∧ o.timeCalled = false ∧
      o.state = latchedState) :=
  ⟨rfl, (check_expensive_latches latchedState 0 false
    [(5, false), (6, true)]).2 rfl⟩

end LibboardgameUtil
